import Mathlib

/-!
Verification development for the devbot-ai artifact version-control engine.

Part 1 embeds the pure diff/merge/similarity functions of
`lib/artifacts/versioning` (source file `part_002`, second section):
`generateDiff`, `mergeContent`, `calculateSimilarity`.  Strings are split
into lines with the semantics of JavaScript `String.prototype.split('\n')`
(the empty string splits into one empty line).  The per-index `for` loops of
the source are embedded as fuel-indexed loops (`diffLoop`, `mergeLoop`)
where the fuel is the number of remaining iterations and `i` the current
index, exactly as in the source (`for (let i = 0; i < maxLines; i++)`);
JavaScript `undefined` reads past the end of an array become `Option`.

Part 2 embeds the version-store operations of `lib/db/queries-artifacts.ts`
(`createArtifactVersion`, `restoreArtifactVersion`, `createArtifactBranch`)
over an explicit in-memory table state.  Hash and timestamp columns are
omitted: no claim mentions them.
-/

namespace DevbotAI

/-- JavaScript `split('\n')` on the character list of a string: the empty
list yields one empty piece, and every newline starts a new piece. -/
def splitL : List Char → List (List Char)
  | [] => [[]]
  | c :: cs =>
    if c = '\n' then [] :: splitL cs
    else
      match splitL cs with
      | [] => [[c]]
      | l :: ls => (c :: l) :: ls

/-- `content.split('\n')` from the source. -/
def splitLines (s : String) : List String :=
  (splitL s.data).map fun cs => ⟨cs⟩

/-- `lines.join('\n')` from the source. -/
def joinLines (ls : List String) : String :=
  String.intercalate "\n" ls

/-- One entry of `DiffResult.modifications`: `{ line, old, new }`. -/
structure LineModification where
  line : Nat
  old : String
  new : String
deriving DecidableEq, Repr

/-- The `stats` field of `DiffResult`. -/
structure DiffStats where
  addedLines : Nat
  deletedLines : Nat
  modifiedLines : Nat
deriving DecidableEq, Repr

/-- The `DiffResult` interface. -/
structure DiffResult where
  additions : List String
  deletions : List String
  modifications : List LineModification
  stats : DiffStats
deriving DecidableEq, Repr

/-- The loop body of `generateDiff`: iterate `fuel` more indices starting
at `i`, pushing additions / deletions / modifications in index order. -/
def diffLoop (oldLines newLines : List String) : Nat → Nat → List String × List String × List LineModification
  | _, 0 => ([], [], [])
  | i, fuel + 1 =>
    let rest := diffLoop oldLines newLines (i + 1) fuel
    match oldLines[i]?, newLines[i]? with
    | none, some nl => (nl :: rest.1, rest.2.1, rest.2.2)
    | some ol, none => (rest.1, ol :: rest.2.1, rest.2.2)
    | some ol, some nl =>
      if ol = nl then rest
      else (rest.1, rest.2.1, ⟨i + 1, ol, nl⟩ :: rest.2.2)
    | none, none => rest

/-- `generateDiff(oldContent, newContent)` from the source: a positional
line-by-line comparison over `max` of the two line counts. -/
def generateDiff (oldContent newContent : String) : DiffResult :=
  let oldLines := splitLines oldContent
  let newLines := splitLines newContent
  let maxLines := max oldLines.length newLines.length
  let r := diffLoop oldLines newLines 0 maxLines
  { additions := r.1
    deletions := r.2.1
    modifications := r.2.2
    stats :=
      { addedLines := r.1.length
        deletedLines := r.2.1.length
        modifiedLines := r.2.2.length } }

/-- The `MergeConflict` interface (`base` is optional). -/
structure MergeConflict where
  line : Nat
  current : String
  incoming : String
  base : Option String
deriving DecidableEq, Repr

/-- The `MergeResult` interface (`content` and `conflicts` are optional). -/
structure MergeResult where
  success : Bool
  content : Option String
  conflicts : Option (List MergeConflict)
deriving DecidableEq, Repr

/-- The loop body of `mergeContent`: iterate `fuel` more indices starting
at `i`.  `x || ''` on a possibly-`undefined` line is `Option.getD ""`. -/
def mergeLoop (baseLines currentLines incomingLines : List String) :
    Nat → Nat → List String × List MergeConflict
  | _, 0 => ([], [])
  | i, fuel + 1 =>
    let rest := mergeLoop baseLines currentLines incomingLines (i + 1) fuel
    let b := baseLines[i]?
    let c := currentLines[i]?
    let n := incomingLines[i]?
    if c = n then
      ((c.getD "") :: rest.1, rest.2)
    else if c = b ∧ n ≠ b then
      ((n.getD "") :: rest.1, rest.2)
    else if n = b ∧ c ≠ b then
      ((c.getD "") :: rest.1, rest.2)
    else
      ("<<<<<<< current" :: (c.getD "") :: "=======" :: (n.getD "") :: ">>>>>>> incoming" :: rest.1,
        ⟨i + 1, c.getD "", n.getD "", b⟩ :: rest.2)

/-- `mergeContent(baseContent, currentContent, incomingContent)` from the
source: a three-way positional merge over the maximum of the three line
counts; `success` iff the conflict list is empty, `conflicts` omitted
(`undefined`) when empty. -/
def mergeContent (baseContent currentContent incomingContent : String) : MergeResult :=
  let baseLines := splitLines baseContent
  let currentLines := splitLines currentContent
  let incomingLines := splitLines incomingContent
  let maxLines := max baseLines.length (max currentLines.length incomingLines.length)
  let r := mergeLoop baseLines currentLines incomingLines 0 maxLines
  { success := r.2.isEmpty
    content := some (joinLines r.1)
    conflicts := if r.2.isEmpty then none else some r.2 }

/-- The counting loop of `calculateSimilarity`: number of indices
`i < min` with `lines1[i] === lines2[i]`. -/
def matchingLines : List String → List String → Nat
  | [], _ => 0
  | _ :: _, [] => 0
  | a :: l1, b :: l2 => (if a = b then 1 else 0) + matchingLines l1 l2

/-- `calculateSimilarity(content1, content2)` from the source, with the
numeric result represented exactly in `ℚ`. -/
def calculateSimilarity (content1 content2 : String) : ℚ :=
  let lines1 := splitLines content1
  let lines2 := splitLines content2
  let totalLines := max lines1.length lines2.length
  if totalLines = 0 then 1
  else (matchingLines lines1 lines2 : ℚ) / (totalLines : ℚ)

/-!
Part 2: the version-store operations of `lib/db/queries-artifacts.ts` over
an explicit state.  The `ArtifactVersion` and `ArtifactBranch` tables
(schema file `part_002`, first section) are lists of rows; `uuid` primary
keys generated by the database become a fresh-id counter on the state.
-/

/-- A row of the `ArtifactVersion` table (hash and timestamp columns
omitted: no claim mentions them). -/
structure VersionRow where
  id : Nat
  artifactId : String
  version : Int
  title : String
  content : String
  commitMessage : Option String
  authorId : String
  parentVersionId : Option Nat
  isActive : Bool
deriving DecidableEq, Repr

/-- A row of the `ArtifactBranch` table (timestamps omitted). -/
structure BranchRow where
  id : Nat
  artifactId : String
  name : String
  headVersionId : Nat
  isDefault : Bool
deriving DecidableEq, Repr

/-- The database state the claims touch: the two tables plus a fresh-id
counter standing for the database's uuid generator. -/
structure Store where
  versions : List VersionRow
  branches : List BranchRow
  nextId : Nat
deriving DecidableEq, Repr

/-- `SELECT ... FROM ArtifactVersion WHERE artifactId = _`: the rows of one
artifact, in table order. -/
def versionsOf (st : Store) (artifactId : String) : List VersionRow :=
  st.versions.filter fun r => r.artifactId == artifactId

/-- The version numbers of one artifact's rows. -/
def versionNumbers (st : Store) (artifactId : String) : List Int :=
  (versionsOf st artifactId).map fun r => r.version

/-- `ORDER BY version DESC LIMIT 1` over a bag of version numbers: its
maximum, `none` on an empty table. -/
def latestVersionNumber : List Int → Option Int
  | [] => none
  | v :: vs =>
    match latestVersionNumber vs with
    | none => some v
    | some m => some (max v m)

/-- The `UPDATE ... SET isActive = false WHERE artifactId = _ AND
isActive = true` step of `createArtifactVersion`. -/
def deactivateActive (rows : List VersionRow) (artifactId : String) : List VersionRow :=
  rows.map fun r =>
    if r.artifactId = artifactId ∧ r.isActive = true then { r with isActive := false } else r

/-- The caller-supplied arguments of `createArtifactVersion` other than the
artifact id. -/
structure CreateArgs where
  title : String
  content : String
  commitMessage : Option String
  authorId : String
  parentVersionId : Option Nat
deriving DecidableEq, Repr

/-- `createArtifactVersion` from `queries-artifacts.ts`: read the greatest
existing version number (`latestVersion?.version || 0`, which is `getD 0`),
add one, deactivate the active versions of the artifact, insert the new row
as active.  Returns the new state and the returned row. -/
def createArtifactVersion (st : Store) (artifactId : String) (a : CreateArgs) :
    Store × VersionRow :=
  let nextVersion := (latestVersionNumber (versionNumbers st artifactId)).getD 0 + 1
  let rows := deactivateActive st.versions artifactId
  let newRow : VersionRow :=
    { id := st.nextId
      artifactId := artifactId
      version := nextVersion
      title := a.title
      content := a.content
      commitMessage := a.commitMessage
      authorId := a.authorId
      parentVersionId := a.parentVersionId
      isActive := true }
  ({ versions := rows ++ [newRow], branches := st.branches, nextId := st.nextId + 1 }, newRow)

/-- `restoreArtifactVersion` from `queries-artifacts.ts`: look the target
version up by `id` and `artifactId`; if absent fail (`none`), otherwise
call `createArtifactVersion` with the target's title and content and commit
message `Restored from version {n}`. -/
def restoreArtifactVersion (st : Store) (artifactId : String) (versionId : Nat)
    (userId : String) : Option (Store × VersionRow) :=
  match st.versions.find? fun r => r.id == versionId && r.artifactId == artifactId with
  | none => none
  | some v =>
    some (createArtifactVersion st artifactId
      { title := v.title
        content := v.content
        commitMessage := some ("Restored from version " ++ toString v.version)
        authorId := userId
        parentVersionId := none })

/-- `createArtifactBranch` from `queries-artifacts.ts`: a plain insert into
`ArtifactBranch` (`isDefault` takes the schema default `false`); the code
performs no duplicate-name check. -/
def createArtifactBranch (st : Store) (artifactId name : String) (fromVersionId : Nat) : Store :=
  { versions := st.versions
    branches := st.branches ++
      [{ id := st.nextId
         artifactId := artifactId
         name := name
         headVersionId := fromVersionId
         isDefault := false }]
    nextId := st.nextId + 1 }

/-- A finite sequence of successful `createArtifactVersion` calls on one
artifact: returns the final state and the row returned by the last call. -/
def runCalls : Store → String → List CreateArgs → Store × Option VersionRow
  | st, _, [] => (st, none)
  | st, artifactId, a :: rest =>
    let p := createArtifactVersion st artifactId a
    let q := runCalls p.1 artifactId rest
    (q.1, some (q.2.getD p.2))

/-- The rows of one artifact with `isActive = true`. -/
def activeVersions (st : Store) (artifactId : String) : List VersionRow :=
  st.versions.filter fun r => r.artifactId == artifactId && r.isActive

/-- A one-version store used as the concrete input of the witnesses. -/
def sampleRow : VersionRow :=
  ⟨0, "a", 1, "t", "A", none, "u", none, true⟩

/-- The store holding exactly `sampleRow`. -/
def sampleStore : Store := ⟨[sampleRow], [], 1⟩

/-- Arguments for a sample `createArtifactVersion` call. -/
def sampleArgs : CreateArgs := ⟨"t2", "B", none, "u", none⟩

/-- The state and row produced by restoring `sampleRow` in `sampleStore`. -/
def sampleRestored : Store × VersionRow :=
  (⟨[⟨0, "a", 1, "t", "A", none, "u", none, false⟩,
     ⟨1, "a", 2, "t", "A", some "Restored from version 1", "u", none, true⟩], [], 2⟩,
   ⟨1, "a", 2, "t", "A", some "Restored from version 1", "u", none, true⟩)

/-- A store holding one branch named `main` for artifact `a`. -/
def branchStore : Store := ⟨[], [⟨5, "a", "main", 0, true⟩], 6⟩

/-!
Helper lemmas about the diff loop: additions are exactly the tail of the
new side past the old side's length, and symmetrically for deletions.
-/

lemma diffLoop_additions (ol nl : List String) :
    ∀ (fuel i : Nat), (diffLoop ol nl i fuel).1 = ((nl.drop i).take fuel).drop (ol.length - i) := by
  intro fuel
  induction fuel with
  | zero => intro i; simp [diffLoop]
  | succ fuel ih =>
    intro i
    rcases h₁ : ol[i]? with _ | olv <;> rcases h₂ : nl[i]? with _ | nlv
    · have hol : ol.length ≤ i := by
        simpa using List.getElem?_eq_none_iff.mp h₁
      have hnl : nl.length ≤ i := by
        simpa using List.getElem?_eq_none_iff.mp h₂
      have hdrop : nl.drop i = [] := List.drop_eq_nil_of_le hnl
      have hdrop' : nl.drop (i + 1) = [] := List.drop_eq_nil_of_le (by omega)
      simp [diffLoop, h₁, h₂, ih, hdrop, hdrop']
    · have hol : ol.length ≤ i := by
        simpa using List.getElem?_eq_none_iff.mp h₁
      have hlt : i < nl.length := by
        by_contra hcon
        simp [List.getElem?_eq_none_iff.mpr (by omega : nl.length ≤ i)] at h₂
      have hdrop : nl.drop i = nlv :: nl.drop (i + 1) := by
        rw [List.drop_eq_getElem_cons hlt]
        have := List.getElem?_eq_getElem hlt
        rw [h₂] at this
        simp [Option.some_inj.mp this.symm]
      simp [diffLoop, h₁, h₂, ih, hdrop, Nat.sub_eq_zero_of_le hol,
        Nat.sub_eq_zero_of_le (by omega : ol.length ≤ i + 1)]
    · have hnl : nl.length ≤ i := by
        simpa using List.getElem?_eq_none_iff.mp h₂
      have hdrop : nl.drop i = [] := List.drop_eq_nil_of_le hnl
      have hdrop' : nl.drop (i + 1) = [] := List.drop_eq_nil_of_le (by omega)
      simp [diffLoop, h₁, h₂, ih, hdrop, hdrop']
    · have hlt : i < ol.length := by
        by_contra hcon
        simp [List.getElem?_eq_none_iff.mpr (by omega : ol.length ≤ i)] at h₁
      have hltn : i < nl.length := by
        by_contra hcon
        simp [List.getElem?_eq_none_iff.mpr (by omega : nl.length ≤ i)] at h₂
      have hdrop : nl.drop i = nlv :: nl.drop (i + 1) := by
        rw [List.drop_eq_getElem_cons hltn]
        have := List.getElem?_eq_getElem hltn
        rw [h₂] at this
        simp [Option.some_inj.mp this.symm]
      have harith : ol.length - i = (ol.length - (i + 1)) + 1 := by omega
      by_cases heq : olv = nlv <;>
        simp [diffLoop, h₁, h₂, heq, ih, hdrop, harith]

lemma diffLoop_deletions (ol nl : List String) :
    ∀ (fuel i : Nat), (diffLoop ol nl i fuel).2.1 = ((ol.drop i).take fuel).drop (nl.length - i) := by
  intro fuel
  induction fuel with
  | zero => intro i; simp [diffLoop]
  | succ fuel ih =>
    intro i
    rcases h₁ : ol[i]? with _ | olv <;> rcases h₂ : nl[i]? with _ | nlv
    · have hol : ol.length ≤ i := by
        simpa using List.getElem?_eq_none_iff.mp h₁
      have hdrop : ol.drop i = [] := List.drop_eq_nil_of_le hol
      have hdrop' : ol.drop (i + 1) = [] := List.drop_eq_nil_of_le (by omega)
      simp [diffLoop, h₁, h₂, ih, hdrop, hdrop']
    · have hol : ol.length ≤ i := by
        simpa using List.getElem?_eq_none_iff.mp h₁
      have hdrop : ol.drop i = [] := List.drop_eq_nil_of_le hol
      have hdrop' : ol.drop (i + 1) = [] := List.drop_eq_nil_of_le (by omega)
      simp [diffLoop, h₁, h₂, ih, hdrop, hdrop']
    · have hnl : nl.length ≤ i := by
        simpa using List.getElem?_eq_none_iff.mp h₂
      have hlt : i < ol.length := by
        by_contra hcon
        simp [List.getElem?_eq_none_iff.mpr (by omega : ol.length ≤ i)] at h₁
      have hdrop : ol.drop i = olv :: ol.drop (i + 1) := by
        rw [List.drop_eq_getElem_cons hlt]
        have := List.getElem?_eq_getElem hlt
        rw [h₁] at this
        simp [Option.some_inj.mp this.symm]
      simp [diffLoop, h₁, h₂, ih, hdrop, Nat.sub_eq_zero_of_le hnl,
        Nat.sub_eq_zero_of_le (by omega : nl.length ≤ i + 1)]
    · have hlt : i < ol.length := by
        by_contra hcon
        simp [List.getElem?_eq_none_iff.mpr (by omega : ol.length ≤ i)] at h₁
      have hltn : i < nl.length := by
        by_contra hcon
        simp [List.getElem?_eq_none_iff.mpr (by omega : nl.length ≤ i)] at h₂
      have hdrop : ol.drop i = olv :: ol.drop (i + 1) := by
        rw [List.drop_eq_getElem_cons hlt]
        have := List.getElem?_eq_getElem hlt
        rw [h₁] at this
        simp [Option.some_inj.mp this.symm]
      have harith : nl.length - i = (nl.length - (i + 1)) + 1 := by omega
      by_cases heq : olv = nlv <;>
        simp [diffLoop, h₁, h₂, heq, ih, hdrop, harith]

/-- `generateDiff`'s additions are the trailing lines of the new content
past the old content's line count. -/
lemma generateDiff_additions (oldContent newContent : String) :
    (generateDiff oldContent newContent).additions =
      (splitLines newContent).drop (splitLines oldContent).length := by
  simp only [generateDiff]
  rw [diffLoop_additions]
  simp [List.take_of_length_le (le_max_right _ _)]

/-- `generateDiff`'s deletions are the trailing lines of the old content
past the new content's line count. -/
lemma generateDiff_deletions (oldContent newContent : String) :
    (generateDiff oldContent newContent).deletions =
      (splitLines oldContent).drop (splitLines newContent).length := by
  simp only [generateDiff]
  rw [diffLoop_deletions]
  simp [List.take_of_length_le (le_max_left _ _)]

/-!
Helper lemma about the merge loop when the current and incoming sides are
the same list: every index takes the first (no-conflict) branch, and
indices past the end of that list contribute `('' || undefined)` lines.
-/

lemma mergeLoop_self (base cur : List String) :
    ∀ (fuel i : Nat),
      mergeLoop base cur cur i fuel =
        ((cur.drop i).take fuel ++ List.replicate (fuel - (cur.length - i)) "", []) := by
  intro fuel
  induction fuel with
  | zero => intro i; simp [mergeLoop]
  | succ fuel ih =>
    intro i
    rcases h : cur[i]? with _ | v
    · have hlen : cur.length ≤ i := by
        simpa using List.getElem?_eq_none_iff.mp h
      have d1 : cur.drop i = [] := List.drop_eq_nil_of_le hlen
      have d2 : cur.drop (i + 1) = [] := List.drop_eq_nil_of_le (by omega)
      simp [mergeLoop, h, ih, d1, d2, Nat.sub_eq_zero_of_le hlen,
        Nat.sub_eq_zero_of_le (by omega : cur.length ≤ i + 1), List.replicate_succ]
    · have hlt : i < cur.length := by
        by_contra hcon
        simp [List.getElem?_eq_none_iff.mpr (by omega : cur.length ≤ i)] at h
      have hdrop : cur.drop i = v :: cur.drop (i + 1) := by
        rw [List.drop_eq_getElem_cons hlt]
        have := List.getElem?_eq_getElem hlt
        rw [h] at this
        simp [Option.some_inj.mp this.symm]
      have harith : (fuel + 1) - (cur.length - i) = fuel - (cur.length - (i + 1)) := by omega
      simp [mergeLoop, h, ih, hdrop, harith]

/-! Helper lemmas about line splitting and the similarity count. -/

lemma splitL_ne_nil : ∀ cs : List Char, splitL cs ≠ [] := by
  intro cs
  induction cs with
  | nil => simp [splitL]
  | cons c cs ih =>
    by_cases h : c = '\n'
    · simp [splitL, h]
    · rcases hs : splitL cs with _ | ⟨l, ls⟩
      · exact absurd hs ih
      · simp [splitL, h, hs]

lemma splitLines_length_pos (s : String) : 0 < (splitLines s).length := by
  rcases hs : splitL s.data with _ | ⟨l, ls⟩
  · exact absurd hs (splitL_ne_nil s.data)
  · simp [splitLines, hs]

lemma matchingLines_le (l1 l2 : List String) :
    matchingLines l1 l2 ≤ min l1.length l2.length := by
  induction l1 generalizing l2 with
  | nil => simp [matchingLines]
  | cons a l1 ih =>
    cases l2 with
    | nil => simp [matchingLines]
    | cons b l2 =>
      have := ih l2
      by_cases h : a = b <;> simp [matchingLines, h] <;> omega

lemma matchingLines_comm (l1 l2 : List String) :
    matchingLines l1 l2 = matchingLines l2 l1 := by
  induction l1 generalizing l2 with
  | nil => cases l2 <;> simp [matchingLines]
  | cons a l1 ih =>
    cases l2 with
    | nil => simp [matchingLines]
    | cons b l2 =>
      by_cases h : a = b <;> simp [matchingLines, h, ih l2, eq_comm]

lemma matchingLines_self (l : List String) : matchingLines l l = l.length := by
  induction l with
  | nil => simp [matchingLines]
  | cons a l ih => simp [matchingLines, ih]; omega

lemma matchingLines_eq_countP_zip (l1 l2 : List String) :
    matchingLines l1 l2 = (l1.zip l2).countP fun p => decide (p.1 = p.2) := by
  induction l1 generalizing l2 with
  | nil => simp [matchingLines]
  | cons a l1 ih =>
    cases l2 with
    | nil => simp [matchingLines]
    | cons b l2 =>
      by_cases h : a = b <;>
        simp [matchingLines, h, ih l2, List.zip_cons_cons, List.countP_cons, Nat.add_comm]

/-! Helper lemmas about the version store. -/

lemma latestVersionNumber_spec (l : List Int) (hne : l ≠ []) :
    ∃ m, latestVersionNumber l = some m ∧ m ∈ l ∧ ∀ x ∈ l, x ≤ m := by
  induction l with
  | nil => exact absurd rfl hne
  | cons v vs ih =>
    cases vs with
    | nil =>
      refine ⟨v, by simp [latestVersionNumber], by simp, ?_⟩
      intro x hx
      simp at hx
      omega
    | cons w ws =>
      obtain ⟨m, hm, hmem, hle⟩ := ih (by simp)
      refine ⟨max v m, ?_, ?_, ?_⟩
      · rw [latestVersionNumber, hm]
      · rcases Int.le_total v m with h | h
        · rw [max_eq_right h]
          exact List.mem_cons_of_mem v hmem
        · rw [max_eq_left h]
          exact List.mem_cons_self v _
      · intro x hx
        rcases List.mem_cons.mp hx with rfl | hx
        · exact le_max_left _ _
        · exact le_trans (hle x hx) (le_max_right _ _)

lemma latestVersionNumber_append_last (l : List Int) (v : Int) (h : ∀ x ∈ l, x ≤ v) :
    latestVersionNumber (l ++ [v]) = some v := by
  induction l with
  | nil => simp [latestVersionNumber]
  | cons w ws ih =>
    have hw : w ≤ v := h w (by simp)
    have ih' := ih fun x hx => h x (by simp [hx])
    simp [latestVersionNumber, ih', max_eq_right hw]

lemma deactivate_filter_map_version (rows : List VersionRow) (aid aid2 : String) :
    (((deactivateActive rows aid).filter fun r => r.artifactId == aid2).map fun r => r.version)
      = ((rows.filter fun r => r.artifactId == aid2).map fun r => r.version) := by
  rw [deactivateActive, List.filter_map, List.map_map]
  have hfil : (rows.filter ((fun r : VersionRow => r.artifactId == aid2) ∘ fun r =>
        if r.artifactId = aid ∧ r.isActive = true then { r with isActive := false } else r))
      = rows.filter fun r => r.artifactId == aid2 :=
    List.filter_congr fun r _ => by
      simp only [Function.comp]
      split_ifs <;> rfl
  rw [hfil]
  exact List.map_congr_left fun r _ => by
    simp only [Function.comp]
    split_ifs <;> rfl

lemma deactivate_filter_active (rows : List VersionRow) (aid : String) :
    ((deactivateActive rows aid).filter fun r => r.artifactId == aid && r.isActive) = [] := by
  rw [deactivateActive, List.filter_map]
  have hfil : (rows.filter ((fun r : VersionRow => r.artifactId == aid && r.isActive) ∘ fun r =>
        if r.artifactId = aid ∧ r.isActive = true then { r with isActive := false } else r))
      = [] := by
    rw [List.filter_eq_nil_iff]
    intro r _
    simp only [Function.comp]
    by_cases hr : r.artifactId = aid ∧ r.isActive = true
    · rw [if_pos hr]
      simp
    · rw [if_neg hr]
      rcases not_and_or.mp hr with h | h
      · simp [h]
      · simp only [Bool.not_eq_true] at h
        simp [h]
  rw [hfil]
  rfl

/-- After one `createArtifactVersion` call the artifact's rows are the old
ones (deactivated) followed by the new row. -/
lemma versionsOf_create (st : Store) (aid : String) (a : CreateArgs) :
    versionsOf (createArtifactVersion st aid a).1 aid =
      ((deactivateActive st.versions aid).filter fun r => r.artifactId == aid) ++
        [(createArtifactVersion st aid a).2] := by
  simp [versionsOf, createArtifactVersion, List.filter_append]

lemma versionNumbers_create (st : Store) (aid : String) (a : CreateArgs) :
    versionNumbers (createArtifactVersion st aid a).1 aid =
      versionNumbers st aid ++ [(createArtifactVersion st aid a).2.version] := by
  rw [versionNumbers, versionsOf_create, List.map_append, deactivate_filter_map_version]
  rfl

lemma length_versionsOf_create (st : Store) (aid : String) (a : CreateArgs) :
    (versionsOf (createArtifactVersion st aid a).1 aid).length =
      (versionsOf st aid).length + 1 := by
  have h := congrArg List.length (versionNumbers_create st aid a)
  simpa [versionNumbers] using h

/-- After one `createArtifactVersion` call, the new row is the single
active version of the artifact. -/
lemma activeVersions_create (st : Store) (aid : String) (a : CreateArgs) :
    activeVersions (createArtifactVersion st aid a).1 aid =
      [(createArtifactVersion st aid a).2] := by
  simp [activeVersions, createArtifactVersion, List.filter_append, deactivate_filter_active]

/-! Claim theorems. -/

/-- C9: for every pair of input strings, `generateDiff` returns as
additions exactly the `max(0, newLineCount - oldLineCount)` trailing lines
of the new content and as deletions exactly the
`max(0, oldLineCount - newLineCount)` trailing lines of the old content;
no input pair produces both a non-empty additions list and a non-empty
deletions list. -/
theorem generateDiff_tail_only (oldContent newContent : String) :
    (generateDiff oldContent newContent).additions =
      (splitLines newContent).drop (splitLines oldContent).length ∧
    (generateDiff oldContent newContent).additions.length =
      (splitLines newContent).length - (splitLines oldContent).length ∧
    (generateDiff oldContent newContent).deletions =
      (splitLines oldContent).drop (splitLines newContent).length ∧
    (generateDiff oldContent newContent).deletions.length =
      (splitLines oldContent).length - (splitLines newContent).length ∧
    ¬((generateDiff oldContent newContent).additions ≠ [] ∧
      (generateDiff oldContent newContent).deletions ≠ []) := by
  refine ⟨generateDiff_additions _ _, ?_, generateDiff_deletions _ _, ?_, ?_⟩
  · rw [generateDiff_additions]
    simp [List.length_drop]
  · rw [generateDiff_deletions]
    simp [List.length_drop]
  · rintro ⟨ha, hd⟩
    rw [generateDiff_additions] at ha
    rw [generateDiff_deletions] at hd
    have h1 : (splitLines oldContent).length < (splitLines newContent).length := by
      by_contra h
      exact ha (List.drop_eq_nil_of_le (by omega))
    exact hd (List.drop_eq_nil_of_le (by omega))

/-- C4: the claim says `generateDiff` aligns lines by an LCS edit script,
so that inserting the whole line `"x"` at the beginning of content `"a"`
would yield exactly the addition `"x"` and zero modifications.  The code
compares positionally: it reports a modification at line 1 (from `"a"` to
`"x"`) and the trailing line `"a"` as the addition. -/
theorem generateDiff_positional_front_insert :
    (generateDiff "a" "x\na").additions = ["a"] ∧
    (generateDiff "a" "x\na").modifications = [⟨1, "a", "x"⟩] ∧
    (generateDiff "a" "x\na").modifications.length ≠ 0 := by decide

/-- C5 counterexample: `generateDiff("a\nb", "")` does not yield two
deletions (the empty string splits into one empty line, so line 1 becomes
a modification and only `"b"` is deleted). -/
theorem generateDiff_empty_case_counterexample :
    ¬((generateDiff "a\nb" "").deletions.length = 2 ∧
      (generateDiff "a\nb" "").additions.length = 0) := by decide

/-- C5 amended: `generateDiff("", "")` yields zero additions, deletions
and modifications; `generateDiff("a\nb", "")` yields exactly one deletion
(`"b"`), zero additions, and one modification replacing line 1 `"a"` by
the empty line. -/
theorem generateDiff_empty_case :
    generateDiff "" "" = ⟨[], [], [], ⟨0, 0, 0⟩⟩ ∧
    generateDiff "a\nb" "" = ⟨[], ["b"], [⟨1, "a", ""⟩], ⟨0, 1, 1⟩⟩ := by decide

/-- C2 counterexample: `mergeContent("a\nb", "x", "x")` succeeds with zero
conflicts but its content is `"x\n"`, not `"x"`: the loop runs to the base
side's line count and appends an empty line for each excess base line. -/
theorem mergeContent_identical_counterexample :
    ¬((mergeContent "a\nb" "x" "x").success = true ∧
      (mergeContent "a\nb" "x" "x").conflicts = none ∧
      (mergeContent "a\nb" "x" "x").content = some "x") := by decide

/-- C2 amended: for every base `b` and every `c`,
`mergeContent(b, c, c)` succeeds with zero conflicts, and its content is
`c`'s lines followed by `max(0, baseLineCount - cLineCount)` empty lines
(hence equal to `c` whenever the base has at most as many lines as `c`). -/
theorem mergeContent_identical_sides (b c : String) :
    (mergeContent b c c).success = true ∧
    (mergeContent b c c).conflicts = none ∧
    (mergeContent b c c).content = some (joinLines (splitLines c ++
      List.replicate ((splitLines b).length - (splitLines c).length) "")) := by
  have harith : max (splitLines b).length (splitLines c).length - (splitLines c).length
      = (splitLines b).length - (splitLines c).length := by
    rcases Nat.le_total (splitLines b).length (splitLines c).length with h | h
    · rw [Nat.max_eq_right h]
      omega
    · rw [Nat.max_eq_left h]
  have htake : (splitLines c).take (max (splitLines b).length (splitLines c).length)
      = splitLines c := List.take_of_length_le (le_max_right _ _)
  simp only [mergeContent, Nat.max_self]
  rw [mergeLoop_self]
  simp [harith, htake]

/-- C8: `calculateSimilarity` always lies in `[0, 1]` and equals the
number of line positions at which the two contents carry identical lines,
divided by the larger of the two line counts; on empty content it returns
`1`, not an error. -/
theorem calculateSimilarity_fraction :
    (∀ a b : String,
      0 ≤ calculateSimilarity a b ∧ calculateSimilarity a b ≤ 1 ∧
      calculateSimilarity a b =
        ((((splitLines a).zip (splitLines b)).countP fun p => decide (p.1 = p.2) : Nat) : ℚ) /
          ((max (splitLines a).length (splitLines b).length : Nat) : ℚ)) ∧
    calculateSimilarity "" "" = 1 := by
  constructor
  · intro a b
    have h1 : 0 < (splitLines a).length := splitLines_length_pos a
    have hpos : 0 < max (splitLines a).length (splitLines b).length :=
      lt_of_lt_of_le h1 (le_max_left _ _)
    have hcast : (0 : ℚ) < ((max (splitLines a).length (splitLines b).length : Nat) : ℚ) := by
      exact_mod_cast hpos
    have hle : matchingLines (splitLines a) (splitLines b) ≤
        max (splitLines a).length (splitLines b).length :=
      le_trans (matchingLines_le _ _) (le_trans (min_le_left _ _) (le_max_left _ _))
    simp only [calculateSimilarity, if_neg (Nat.pos_iff_ne_zero.mp hpos)]
    refine ⟨div_nonneg (Nat.cast_nonneg _) (le_of_lt hcast), ?_, ?_⟩
    · rw [div_le_one hcast]
      exact_mod_cast hle
    · rw [matchingLines_eq_countP_zip]
  · norm_num [calculateSimilarity, splitLines, splitL, matchingLines]

/-- After a non-empty sequence of `createArtifactVersion` calls, the one
active version is the row returned by the last call. -/
lemma runCalls_last_active (aid : String) :
    ∀ (calls : List CreateArgs) (st : Store), calls ≠ [] →
      ∃ v, (runCalls st aid calls).2 = some v ∧
        activeVersions (runCalls st aid calls).1 aid = [v] := by
  intro calls
  induction calls with
  | nil => exact fun st h => absurd rfl h
  | cons a rest ih =>
    intro st _
    by_cases hrest : rest = []
    · subst hrest
      exact ⟨(createArtifactVersion st aid a).2, by simp [runCalls],
        by simp [runCalls, activeVersions_create]⟩
    · obtain ⟨v, hv2, hact⟩ := ih (createArtifactVersion st aid a).1 hrest
      exact ⟨v, by simp [runCalls, hv2], by simp [runCalls, hact]⟩

/-- C1: starting from a state with at most one active version of the
artifact, after any non-empty finite sequence of successful
`createArtifactVersion` calls on it exactly one of its versions has
`isActive = true`, namely the one created by the most recent call. -/
theorem createVersion_active_uniqueness (st : Store) (aid : String) (calls : List CreateArgs)
    (hinit : (activeVersions st aid).length ≤ 1) (hne : calls ≠ []) :
    ∃ v, (runCalls st aid calls).2 = some v ∧
      activeVersions (runCalls st aid calls).1 aid = [v] :=
  runCalls_last_active aid calls st hne

/-- Witness for C1 at the empty store and a single call. -/
theorem createVersion_active_uniqueness_witness :
    (activeVersions ⟨[], [], 0⟩ "a").length ≤ 1 ∧
    ([⟨"t", "A", none, "u", none⟩] : List CreateArgs) ≠ [] ∧
    ∃ v, (runCalls ⟨[], [], 0⟩ "a" [⟨"t", "A", none, "u", none⟩]).2 = some v ∧
      activeVersions (runCalls ⟨[], [], 0⟩ "a" [⟨"t", "A", none, "u", none⟩]).1 "a" = [v] :=
  ⟨by decide, by decide,
    createVersion_active_uniqueness ⟨[], [], 0⟩ "a" [⟨"t", "A", none, "u", none⟩]
      (by decide) (by decide)⟩

/-- C3: successive `createArtifactVersion` calls on one artifact return
version numbers that increase by exactly 1; the new number exceeds every
existing number and is `max(existing) + 1` when versions exist; a
successful `restoreArtifactVersion` increases the artifact's version count
by one and never reuses an existing version number. -/
theorem version_numbering (st : Store) (aid : String) (a b : CreateArgs)
    (vid : Nat) (uid : String) :
    (createArtifactVersion (createArtifactVersion st aid a).1 aid b).2.version
      = (createArtifactVersion st aid a).2.version + 1 ∧
    (∀ r ∈ versionsOf st aid, r.version < (createArtifactVersion st aid a).2.version) ∧
    (versionsOf st aid ≠ [] →
      ∃ r ∈ versionsOf st aid, (createArtifactVersion st aid a).2.version = r.version + 1 ∧
        ∀ r2 ∈ versionsOf st aid, r2.version ≤ r.version) ∧
    (∀ st2 v, restoreArtifactVersion st aid vid uid = some (st2, v) →
      (versionsOf st2 aid).length = (versionsOf st aid).length + 1 ∧
        ∀ r ∈ versionsOf st aid, r.version ≠ v.version) := by
  have hgt : ∀ (s : Store) (c : CreateArgs), ∀ r ∈ versionsOf s aid,
      r.version < (createArtifactVersion s aid c).2.version := by
    intro s c r hr
    have hmem : r.version ∈ versionNumbers s aid := List.mem_map_of_mem _ hr
    obtain ⟨m, hm, _, hle⟩ := latestVersionNumber_spec _ (List.ne_nil_of_mem hmem)
    have hv : (createArtifactVersion s aid c).2.version = m + 1 := by
      show (latestVersionNumber (versionNumbers s aid)).getD 0 + 1 = m + 1
      rw [hm]
      rfl
    rw [hv]
    exact lt_of_le_of_lt (hle _ hmem) (by omega)
  refine ⟨?_, hgt st a, ?_, ?_⟩
  · have hnums := versionNumbers_create st aid a
    have hlast := latestVersionNumber_append_last (versionNumbers st aid)
      ((createArtifactVersion st aid a).2.version) (fun x hx => by
        obtain ⟨r, hr, hrv⟩ := List.mem_map.mp hx
        rw [← hrv]
        exact le_of_lt (hgt st a r hr))
    show (latestVersionNumber
        (versionNumbers (createArtifactVersion st aid a).1 aid)).getD 0 + 1 = _
    rw [hnums, hlast]
    rfl
  · intro hne
    have hne2 : versionNumbers st aid ≠ [] := by
      simp only [versionNumbers, ne_eq, List.map_eq_nil_iff]
      exact hne
    obtain ⟨m, hm, hmem, hle⟩ := latestVersionNumber_spec _ hne2
    obtain ⟨r, hr, hrv⟩ := List.mem_map.mp hmem
    refine ⟨r, hr, ?_, ?_⟩
    · show (latestVersionNumber (versionNumbers st aid)).getD 0 + 1 = r.version + 1
      rw [hm, hrv]
      rfl
    · intro r2 hr2
      have h2 : r2.version ∈ versionNumbers st aid := List.mem_map_of_mem _ hr2
      rw [hrv]
      exact hle _ h2
  · intro st2 v hres
    rcases hfind : st.versions.find? fun r => r.id == vid && r.artifactId == aid with _ | v0
    · rw [restoreArtifactVersion, hfind] at hres
      exact absurd hres (by simp)
    · rw [restoreArtifactVersion, hfind] at hres
      have hpair := Option.some.inj hres
      have h1 : (createArtifactVersion st aid
          { title := v0.title, content := v0.content,
            commitMessage := some ("Restored from version " ++ toString v0.version),
            authorId := uid, parentVersionId := none }).1 = st2 :=
        congrArg Prod.fst hpair
      have h2 : (createArtifactVersion st aid
          { title := v0.title, content := v0.content,
            commitMessage := some ("Restored from version " ++ toString v0.version),
            authorId := uid, parentVersionId := none }).2 = v :=
        congrArg Prod.snd hpair
      constructor
      · rw [← h1]
        exact length_versionsOf_create st aid _
      · intro r hr
        rw [← h2]
        exact ne_of_lt (hgt st _ r hr)

/-- Witness for C3 at `sampleStore`. -/
theorem version_numbering_witness :
    (∃ r ∈ versionsOf sampleStore "a",
      (createArtifactVersion sampleStore "a" sampleArgs).2.version = r.version + 1 ∧
        ∀ r2 ∈ versionsOf sampleStore "a", r2.version ≤ r.version) ∧
    (versionsOf sampleRestored.1 "a").length = (versionsOf sampleStore "a").length + 1 ∧
    (∀ r ∈ versionsOf sampleStore "a", r.version ≠ sampleRestored.2.version) :=
  ⟨(version_numbering sampleStore "a" sampleArgs sampleArgs 0 "u").2.2.1 (by decide),
   ((version_numbering sampleStore "a" sampleArgs sampleArgs 0 "u").2.2.2
      sampleRestored.1 sampleRestored.2 (by decide)).1,
   ((version_numbering sampleStore "a" sampleArgs sampleArgs 0 "u").2.2.2
      sampleRestored.1 sampleRestored.2 (by decide)).2⟩

/-- C6: when the target version exists for the artifact,
`restoreArtifactVersion` succeeds and appends one new version whose title
and content equal the target's, with commit message
`Restored from version {n}`; the artifact's history length and the table
length both grow by exactly one (nothing is rewound or deleted). -/
theorem restoreArtifactVersion_appends (st : Store) (aid : String) (vid : Nat) (uid : String)
    (v0 : VersionRow)
    (hfind : (st.versions.find? fun r => r.id == vid && r.artifactId == aid) = some v0) :
    ∃ st2 v, restoreArtifactVersion st aid vid uid = some (st2, v) ∧
      v.title = v0.title ∧ v.content = v0.content ∧
      v.commitMessage = some ("Restored from version " ++ toString v0.version) ∧
      (versionsOf st2 aid).length = (versionsOf st aid).length + 1 ∧
      st2.versions.length = st.versions.length + 1 := by
  rw [restoreArtifactVersion, hfind]
  refine ⟨_, _, rfl, rfl, rfl, rfl, length_versionsOf_create st aid _, ?_⟩
  simp [createArtifactVersion, deactivateActive]

/-- Witness for C6: restoring the only version of `sampleStore`. -/
theorem restoreArtifactVersion_appends_witness :
    ∃ st2 v, restoreArtifactVersion sampleStore "a" 0 "u" = some (st2, v) ∧
      v.title = sampleRow.title ∧ v.content = sampleRow.content ∧
      v.commitMessage = some ("Restored from version " ++ toString sampleRow.version) ∧
      (versionsOf st2 "a").length = (versionsOf sampleStore "a").length + 1 ∧
      st2.versions.length = sampleStore.versions.length + 1 :=
  restoreArtifactVersion_appends sampleStore "a" 0 "u" sampleRow (by decide)

/-- C7: the claim says `createArtifactBranch` fails with `ConflictError`
when a branch with that name already exists for the artifact, leaving the
branch set unchanged.  The code performs a plain insert with no duplicate
check (and the imported schema carries no unique constraint on
`(artifactId, name)`), so the call succeeds and a second branch with the
same name is created. -/
theorem createArtifactBranch_duplicate_name :
    ((createArtifactBranch branchStore "a" "main" 0).branches.filter
      fun bRow => bRow.artifactId == "a" && bRow.name == "main").length = 2 ∧
    (createArtifactBranch branchStore "a" "main" 0).branches ≠ branchStore.branches := by
  decide

/-- C10: `calculateSimilarity` is symmetric, and on identical inputs it
returns `1`. -/
theorem calculateSimilarity_symm_refl :
    (∀ a b : String, calculateSimilarity a b = calculateSimilarity b a) ∧
    (∀ a : String, calculateSimilarity a a = 1) := by
  constructor
  · intro a b
    simp only [calculateSimilarity]
    rw [matchingLines_comm, Nat.max_comm]
  · intro a
    have h1 : 0 < (splitLines a).length := splitLines_length_pos a
    have hne : ((splitLines a).length : ℚ) ≠ 0 := by
      exact_mod_cast Nat.pos_iff_ne_zero.mp h1
    simp only [calculateSimilarity, Nat.max_self, matchingLines_self,
      if_neg (Nat.pos_iff_ne_zero.mp h1)]
    exact div_self hne


end DevbotAI
